import Mathlib

/-
Shallow embedding of the core of the tidal_bot repository
(track identity model, resilient fetch primitive, merge loop,
Spotify-side dedup, and the reorder engine) together with proofs
about the claims of its specification.

Conventions of the embedding:
* `timedelta` durations are modelled as integer milliseconds
  (both parsers construct durations from whole seconds or whole
  milliseconds, and the 2-second tolerance is exact in this unit).
* Python `set[str]` is modelled as `Finset String`.
* Python string operations (`strip`, `lower`, `split`, `in`,
  case-insensitive anchored `re.match`) are modelled by executable
  character-list functions below, so that concrete instances can be
  evaluated by the kernel.  Lowercasing and whitespace are handled
  on the ASCII range; Unicode NFD decomposition inside
  `_normalize_artist_name` is modelled as the identity, so the
  transliteration pipeline is trim, lowercase, then drop every
  non-ASCII character.  This only affects which concrete strings
  fold to which outputs, never the structure of the predicates;
  claims about the fold quantify over its output.
* Fallible remote calls are modelled as explicit functions supplied
  through environments; `Option` stands for Python `None` results.
-/

/-- ASCII lowercasing of one character (models `str.lower`). -/
def lowerChar (c : Char) : Char :=
  if 65 ≤ c.toNat ∧ c.toNat ≤ 90 then Char.ofNat (c.toNat + 32) else c

/-- Lowercase a character list (models `str.lower`). -/
def lowerList (l : List Char) : List Char :=
  l.map lowerChar

/-- Whitespace test used to model `str.strip`. -/
def isSpaceChar (c : Char) : Bool :=
  c = ' ' || c = '\t' || c = '\n' || c = '\r'

/-- Strip leading and trailing whitespace (models `str.strip`). -/
def trimChars (l : List Char) : List Char :=
  ((l.dropWhile isSpaceChar).reverse.dropWhile isSpaceChar).reverse

/-- Split on a separator character with Python `str.split`
semantics: `"" ↦ [""]`, `"a&&b" ↦ ["a", "", "b"]`. -/
def splitOnChar (sep : Char) : List Char → List (List Char)
  | [] => [[]]
  | c :: cs =>
    if c = sep then [] :: splitOnChar sep cs
    else
      match splitOnChar sep cs with
      | [] => [[c]]
      | piece :: rest => (c :: piece) :: rest

/-- `Track.id` in the source is `str | int`. -/
abbrev TrackId := String ⊕ Int

/-- Embeds the `Album` dataclass of `tidal_bot/api.py`. -/
structure Album where
  name : String
  total_tracks : Nat
  artists : Finset String
deriving DecidableEq

/-- Embeds the `Track` dataclass of `tidal_bot/api.py`
(`duration` in milliseconds, `added_at` as an opaque timestamp). -/
structure Track where
  id : TrackId
  isrc : String
  name : String
  duration : Int
  artists : Finset String
  album : Option Album := none
  added_at : Option Int := none
deriving DecidableEq

/-- The strip / lowercase / transliterate-to-ASCII pipeline of
`_normalize_artist_name` (`api.py`): `unicodedata.normalize("NFD",
name.strip().lower()).encode("ascii", "ignore").decode("ascii")`,
with NFD modelled as the identity. -/
def asciiFoldList (l : List Char) : List Char :=
  (lowerList (trimChars l)).filter (fun c => c.toNat < 128)

/-- `asciiFoldList` on a `String`. -/
def asciiFold (s : String) : String :=
  String.mk (asciiFoldList s.toList)

/-- Embeds `_normalize_artist_name` (`api.py`): fold the name to
lowercase ASCII, then for each separator in `("&", ",")` add the
pieces of the split when the separator occurs, otherwise add the
whole folded name.  The result is the union over both separators,
exactly as the Python loop updates one shared set. -/
def normalizeArtistName (name : String) : Finset String :=
  let lower := asciiFoldList name.toList
  let s1 : Finset String :=
    if lower.contains '&' then
      ((splitOnChar '&' lower).map String.mk).toFinset
    else {String.mk lower}
  let s2 : Finset String :=
    if lower.contains ',' then
      ((splitOnChar ',' lower).map String.mk).toFinset
    else {String.mk lower}
  s1 ∪ s2

/-- The normalized artist-fragment set of one side in
`Track.__eq__`: the union of `normalizeArtistName` over all artist
names (the Python loop `for a in self.artists: update(...)`). -/
def normalizedArtists (artists : Finset String) : Finset String :=
  artists.biUnion normalizeArtistName

/-- Case-insensitive anchored match (models
`re.match(re.escape(p), s, re.IGNORECASE) is not None`): the
escaped pattern matches literally at the start of `s`, ignoring
case. -/
def ciStartsWith (p s : String) : Bool :=
  List.isPrefixOf (lowerList p.toList) (lowerList s.toList)

/-- Embeds `Track.__eq__` (`api.py`), the fuzzy track-identity
predicate:
1. equal ISRC strings are decisive (returns true);
2. a duration difference above 2 seconds (2000 ms) is decisive
   (returns false);
3. an empty intersection of normalized artist-fragment sets is
   decisive (returns false);
4. a missing album on either side yields true;
5. otherwise, true iff one album name is a case-insensitive
   prefix of the other (the anchored `re.match` in either
   direction). -/
def trackEq (a b : Track) : Bool :=
  if a.isrc = b.isrc then true
  else if 2000 < (a.duration - b.duration).natAbs then false
  else if normalizedArtists a.artists ∩ normalizedArtists b.artists = ∅ then false
  else
    match a.album, b.album with
    | none, _ => true
    | some _, none => true
    | some x, some y => ciStartsWith x.name y.name || ciStartsWith y.name x.name

example :
    trackEq
      { id := .inl "1", isrc := "X", name := "a", duration := 0, artists := ∅ }
      { id := .inl "2", isrc := "X", name := "b", duration := 99999, artists := ∅ } = true := by
  decide

example : asciiFold " Beyoncé " = "beyonc" := by decide

example : normalizeArtistName "A & B" = {"a ", " b", "a & b"} := by decide

/-- A track with a lowercase ISRC, used to exercise case sensitivity. -/
def isrcLowerTrack : Track :=
  { id := .inl "1", isrc := "abc", name := "Song", duration := 0, artists := ∅ }

/-- A track with the same ISRC uppercased and a 10-second longer
duration. -/
def isrcUpperTrack : Track :=
  { id := .inl "2", isrc := "ABC", name := "Song", duration := 10000, artists := ∅ }

/-- C5 counterexample: `isrcLowerTrack` and `isrcUpperTrack` have
ISRC codes that are equal under case-insensitive comparison, but
`trackEq` is false on them (the source compares ISRC strings
exactly, so it falls through to the decisive 10-second duration
gap). -/
theorem trackEq_isrc_case_insensitive_cex :
    (lowerList isrcLowerTrack.isrc.toList = lowerList isrcUpperTrack.isrc.toList) ∧
      trackEq isrcLowerTrack isrcUpperTrack = false := by
  decide

/-- C5 (amended): for every pair of tracks whose ISRC codes are
equal as exact strings, `trackEq` returns true regardless of any
difference in duration, artists, or album. -/
theorem trackEq_of_isrc_eq (a b : Track) (h : a.isrc = b.isrc) :
    trackEq a b = true := by
  unfold trackEq
  rw [if_pos h]

/-- Witness for C5's amended theorem at a concrete pair of tracks
that differ in duration by 10 seconds. -/
theorem trackEq_of_isrc_eq_witness :
    trackEq isrcLowerTrack { isrcUpperTrack with isrc := "abc" } = true :=
  trackEq_of_isrc_eq isrcLowerTrack { isrcUpperTrack with isrc := "abc" } rfl

/-- C6: for every pair of tracks whose ISRC strings do not match
and whose durations differ by more than 2 seconds (2000 ms),
`trackEq` returns false, regardless of their artists and albums. -/
theorem trackEq_false_of_duration_gap (a b : Track) (h1 : a.isrc ≠ b.isrc)
    (h2 : 2000 < (a.duration - b.duration).natAbs) :
    trackEq a b = false := by
  unfold trackEq
  rw [if_neg h1, if_pos h2]

/-- Witness for C6 at a concrete pair of tracks. -/
theorem trackEq_false_of_duration_gap_witness :
    trackEq isrcLowerTrack isrcUpperTrack = false :=
  trackEq_false_of_duration_gap isrcLowerTrack isrcUpperTrack
    (by decide) (by decide)

/-- `trackEq` is reflexive: the ISRC strings of a track and itself
are equal, and equal ISRC is decisive. -/
theorem trackEq_refl (a : Track) : trackEq a a = true := by
  unfold trackEq
  rw [if_pos rfl]

/-- The absolute value of an integer difference is symmetric. -/
theorem natAbs_sub_swap (a b : Int) : (a - b).natAbs = (b - a).natAbs := by
  rw [← Int.natAbs_neg (a - b), neg_sub]

/-- `trackEq` is symmetric: every stage (ISRC equality, absolute
duration difference, fragment-set intersection, missing-album rule,
and the prefix comparison taken in either direction) is itself
symmetric. -/
theorem trackEq_symm (a b : Track) : trackEq a b = trackEq b a := by
  by_cases h1 : a.isrc = b.isrc
  · simp only [trackEq, if_pos h1, if_pos h1.symm]
  · have h1b : ¬b.isrc = a.isrc := fun h => h1 h.symm
    by_cases h2 : 2000 < (a.duration - b.duration).natAbs
    · have h2b : 2000 < (b.duration - a.duration).natAbs := by
        rwa [natAbs_sub_swap b.duration a.duration]
      simp only [trackEq, if_neg h1, if_neg h1b, if_pos h2, if_pos h2b]
    · have h2b : ¬2000 < (b.duration - a.duration).natAbs := by
        rwa [natAbs_sub_swap b.duration a.duration]
      by_cases h3 :
          normalizedArtists a.artists ∩ normalizedArtists b.artists = ∅
      · have h3b : normalizedArtists b.artists ∩ normalizedArtists a.artists = ∅ := by
          rwa [Finset.inter_comm]
        simp only [trackEq, if_neg h1, if_neg h1b, if_neg h2, if_neg h2b,
          if_pos h3, if_pos h3b]
      · have h3b : ¬normalizedArtists b.artists ∩ normalizedArtists a.artists = ∅ := by
          rwa [Finset.inter_comm]
        simp only [trackEq, if_neg h1, if_neg h1b, if_neg h2, if_neg h2b,
          if_neg h3, if_neg h3b]
        cases a.album <;> cases b.album <;> simp [Bool.or_comm]

/-- C7: the fuzzy track-equality predicate is reflexive and
symmetric. -/
theorem trackEq_reflexive_and_symmetric :
    (∀ a : Track, trackEq a a = true) ∧
      (∀ a b : Track, trackEq a b = trackEq b a) :=
  ⟨trackEq_refl, trackEq_symm⟩

/-- Embeds the `AddedTracksResult` dataclass of `tidal_bot/api.py`:
four ordered sequences, each starting empty. -/
structure AddedTracksResult where
  added : List Track := []
  skipped : List Track := []
  not_found : List Track := []
  add_error : List Track := []
deriving DecidableEq

/-- Modelled from the spec: the derived `tracks` sequence of an
`AddedTracksResult` is not defined under the available sources
(only its caller `__main__.py` reads `result.tracks`); per the
spec it is the concatenation `added + skipped`. -/
def AddedTracksResult.tracks (r : AddedTracksResult) : List Track :=
  r.added ++ r.skipped

/-- The remote-catalog context of the per-track loop of
`MyTidal.merge_playlist` (`tidal/tidal.py`): the destination
playlist's `existing_tracks` in fetch order, the (retry-wrapped)
`search_track` remote search, and whether the (retry-wrapped)
`add_by_isrc` write succeeds for a given ISRC (`None` and falsy
results are both failures, collapsed into `false`). -/
structure MergeEnv where
  existing : List Track
  search : Track → Option Track
  addOk : String → Bool

/-- One iteration of the per-track loop of
`MyTidal.merge_playlist`: first occurrence in `existing_tracks`
fuzzy-equal to the source track makes it `skipped` (recording the
existing destination-side track); otherwise a failed search makes
it `not_found` (recording the source track); otherwise the found
candidate is added, landing in `added` on success and `add_error`
on failure (recording the destination-side candidate). -/
def mergeStep (env : MergeEnv) (r : AddedTracksResult) (track : Track) :
    AddedTracksResult :=
  match env.existing.find? (fun t => trackEq t track) with
  | some existingTrack => { r with skipped := r.skipped ++ [existingTrack] }
  | none =>
    match env.search track with
    | none => { r with not_found := r.not_found ++ [track] }
    | some foundTrack =>
      if env.addOk foundTrack.isrc then { r with added := r.added ++ [foundTrack] }
      else { r with add_error := r.add_error ++ [foundTrack] }

/-- The entire per-track loop of `MyTidal.merge_playlist` over the
source playlist's tracks, starting from `AddedTracksResult()`. -/
def mergeTracks (env : MergeEnv) (source : List Track) : AddedTracksResult :=
  source.foldl (mergeStep env) {}

/-- The single outcome of one source track in the merge loop. -/
inductive Outcome where
  | added (t : Track)
  | skipped (t : Track)
  | notFound (t : Track)
  | addError (t : Track)
deriving DecidableEq

/-- The classification each source track receives in the loop of
`MyTidal.merge_playlist`, as a total function of the environment. -/
def classifyTrack (env : MergeEnv) (track : Track) : Outcome :=
  match env.existing.find? (fun t => trackEq t track) with
  | some existingTrack => .skipped existingTrack
  | none =>
    match env.search track with
    | none => .notFound track
    | some foundTrack =>
      if env.addOk foundTrack.isrc then .added foundTrack
      else .addError foundTrack

/-- The destination-side track a source track contributes to
`added`, if any. -/
def addedOf (env : MergeEnv) (track : Track) : Option Track :=
  match classifyTrack env track with
  | .added t => some t
  | _ => none

/-- The destination-side track a source track contributes to
`skipped`, if any. -/
def skippedOf (env : MergeEnv) (track : Track) : Option Track :=
  match classifyTrack env track with
  | .skipped t => some t
  | _ => none

/-- The track a source track contributes to `not_found`, if any. -/
def notFoundOf (env : MergeEnv) (track : Track) : Option Track :=
  match classifyTrack env track with
  | .notFound t => some t
  | _ => none

/-- The track a source track contributes to `add_error`, if any. -/
def addErrorOf (env : MergeEnv) (track : Track) : Option Track :=
  match classifyTrack env track with
  | .addError t => some t
  | _ => none

/-- `mergeStep` appends to exactly the list selected by
`classifyTrack`. -/
theorem mergeStep_eq_classify (env : MergeEnv) (r : AddedTracksResult)
    (track : Track) :
    mergeStep env r track =
      match classifyTrack env track with
      | .added t => { r with added := r.added ++ [t] }
      | .skipped t => { r with skipped := r.skipped ++ [t] }
      | .notFound t => { r with not_found := r.not_found ++ [t] }
      | .addError t => { r with add_error := r.add_error ++ [t] } := by
  unfold mergeStep classifyTrack
  cases env.existing.find? (fun t => trackEq t track) with
  | some t => rfl
  | none =>
    cases env.search track with
    | none => rfl
    | some foundTrack =>
      by_cases h : env.addOk foundTrack.isrc = true
      · simp [h]
      · simp [h]

/-- Accumulator-generalized description of the merge loop: each of
the four lists is its initial value followed by the per-track
contributions in source order. -/
theorem mergeFold_spec (env : MergeEnv) (source : List Track)
    (r : AddedTracksResult) :
    source.foldl (mergeStep env) r =
      { added := r.added ++ source.filterMap (addedOf env),
        skipped := r.skipped ++ source.filterMap (skippedOf env),
        not_found := r.not_found ++ source.filterMap (notFoundOf env),
        add_error := r.add_error ++ source.filterMap (addErrorOf env) } := by
  induction source generalizing r with
  | nil => simp
  | cons t ts ih =>
    rw [List.foldl_cons, ih, mergeStep_eq_classify]
    unfold addedOf skippedOf notFoundOf addErrorOf
    cases h : classifyTrack env t <;>
      simp [h, List.filterMap_cons, List.append_assoc]

/-- For each source track exactly one of the four contribution
functions produces an entry. -/
theorem classify_contribution_lengths (env : MergeEnv) (source : List Track) :
    (source.filterMap (addedOf env)).length +
        (source.filterMap (skippedOf env)).length +
        (source.filterMap (notFoundOf env)).length +
        (source.filterMap (addErrorOf env)).length = source.length := by
  induction source with
  | nil => simp
  | cons t ts ih =>
    unfold addedOf skippedOf notFoundOf addErrorOf
    unfold addedOf skippedOf notFoundOf addErrorOf at ih
    cases h : classifyTrack env t <;>
      simp [List.filterMap_cons, h] <;> omega

/-- C1: every source track of a merge is classified into exactly
one of the four result sequences, appended in source order (each
sequence is exactly the per-track contributions of the source
tracks, in order), so the four lengths sum to the number of source
tracks. -/
theorem merge_partitions_source_tracks (env : MergeEnv) (source : List Track) :
    (mergeTracks env source).added = source.filterMap (addedOf env) ∧
      (mergeTracks env source).skipped = source.filterMap (skippedOf env) ∧
      (mergeTracks env source).not_found = source.filterMap (notFoundOf env) ∧
      (mergeTracks env source).add_error = source.filterMap (addErrorOf env) ∧
      (mergeTracks env source).added.length +
          (mergeTracks env source).skipped.length +
          (mergeTracks env source).not_found.length +
          (mergeTracks env source).add_error.length = source.length := by
  have h := mergeFold_spec env source {}
  unfold mergeTracks
  rw [h]
  exact ⟨rfl, rfl, rfl, rfl, classify_contribution_lengths env source⟩

/-- C2: the derived `tracks` sequence of a merge result is the
concatenation of the `added` and `skipped` sequences, and those are
exactly the tracks confirmed present in the destination (the
added-classified then the skipped-classified contributions, each in
source-track order). -/
theorem merge_tracks_is_added_then_skipped (env : MergeEnv) (source : List Track) :
    (mergeTracks env source).tracks =
        (mergeTracks env source).added ++ (mergeTracks env source).skipped ∧
      (mergeTracks env source).tracks =
        source.filterMap (addedOf env) ++ source.filterMap (skippedOf env) := by
  have h := mergeFold_spec env source {}
  unfold mergeTracks at h ⊢
  rw [h]
  simp [AddedTracksResult.tracks]

/-- Models Python `list.remove(x)` under the fuzzy `Track.__eq__`:
remove the first element `y` of the list satisfying `y == x`
(`trackEq y x`); `none` models the `ValueError` raised when no
element matches. -/
def removeFirst (x : Track) : List Track → Option (List Track)
  | [] => none
  | y :: ys =>
    if trackEq y x then some ys
    else (removeFirst x ys).map (fun zs => y :: zs)

/-- One iteration of the dedup loop of
`MySpotify._get_tracks_from_playlist` (`spotify/spotify.py`) for
snapshot element `track`: collect every element of the current list
fuzzy-equal to `track`; when there are at least two, call
`list.remove` on each of them except the first. -/
def dedupStep (tracks : List Track) (track : Track) : Option (List Track) :=
  let found := tracks.filter (fun t => trackEq t track)
  if 1 < found.length then
    List.foldlM (fun acc t => removeFirst t acc) tracks found.tail
  else some tracks

/-- The dedup pass of `MySpotify._get_tracks_from_playlist`:
iterate over a snapshot (`list(tracks)`) of the fetched list while
mutating the list itself. -/
def dedupTracks (tracks : List Track) : Option (List Track) :=
  List.foldlM dedupStep tracks tracks

/-- The first of two fuzzy-equal fetched tracks (same ISRC). -/
def dupFirstTrack : Track :=
  { id := .inl "1", isrc := "QQ", name := "Dup", duration := 0, artists := ∅ }

/-- The second of two fuzzy-equal fetched tracks (same ISRC). -/
def dupSecondTrack : Track :=
  { id := .inl "2", isrc := "QQ", name := "Dup", duration := 0, artists := ∅ }

/-- C3 (evaluation of the code at the failing input): on a fetched
list `[a, b]` of two fuzzy-equal tracks, the dedup keeps the SECOND
occurrence, not the first: `tracks.remove(b)` scans for the first
element equal to `b` and reaches `a` first, so the first occurrence
is what gets removed — contradicting the keep-first rule stated by
the spec and by the code's own log message. -/
theorem dedup_keeps_second_occurrence :
    dedupTracks [dupFirstTrack, dupSecondTrack] = some [dupSecondTrack] ∧
      dupSecondTrack ≠ dupFirstTrack := by
  decide

/-- Result of one attempt of a remote call inside
`_retry_on_error`: a value, a recognized transient error
(`TidalAPIError` or `RequestException`), or any other exception. -/
inductive CallResult (α : Type) where
  | ok (v : α)
  | transient
  | fatal
deriving DecidableEq

/-- How `_retry_on_error` ends: a returned value, `None` after
exhausting the retries, or an exception propagating out. -/
inductive RetryOutcome (α : Type) where
  | ok (v : α)
  | gaveUp
  | raised
deriving DecidableEq

/-- The fixed `backoff_intervals` list of `_retry_on_error`. -/
def backoffIntervals : List Nat := [1, 2, 5, 10, 30, 60]

/-- The loop of `_retry_on_error` (`tidal/tidal.py`): one attempt
per backoff interval, with `call` indexed by the attempt number.  A
success returns immediately; a non-recognized error propagates
immediately; a recognized transient error on the last interval
returns `None` without sleeping, and otherwise the current interval
is slept and the loop continues.  The second component records the
sleeps performed, in order.  (The `[]` case corresponds to the
`RuntimeError("Unreachable code")` after the loop.) -/
def retryAux {α : Type} (call : Nat → CallResult α) :
    List Nat → Nat → RetryOutcome α × List Nat
  | [], _ => (.raised, [])
  | backoff :: rest, i =>
    match call i with
    | .ok v => (.ok v, [])
    | .fatal => (.raised, [])
    | .transient =>
      if rest.isEmpty then (.gaveUp, [])
      else
        let r := retryAux call rest (i + 1)
        (r.1, backoff :: r.2)

/-- `_retry_on_error` with its sleep trace. -/
def retryOnError {α : Type} (call : Nat → CallResult α) :
    RetryOutcome α × List Nat :=
  retryAux call backoffIntervals 0

/-- C4 counterexample: with every attempt failing transiently the
wrapper performs the sleeps `[1, 2, 5, 10, 30]` — the last schedule
value 60 is never slept, because the final attempt returns `None`
without sleeping first. -/
theorem retry_never_sleeps_last_interval :
    retryOnError (fun _ : Nat => (CallResult.transient : CallResult Nat)) =
        (.gaveUp, [1, 2, 5, 10, 30]) ∧
      ([1, 2, 5, 10, 30] : List Nat) ≠ [1, 2, 5, 10, 30, 60] := by
  decide

/-- C4 (amended): on a call that fails transiently at every
attempt, the wrapper makes six attempts, sleeping every schedule
value except the last (`[1, 2, 5, 10, 30]`) between attempts, and
then signals failure with an absent result instead of raising; an
error outside the recognized transient classes propagates
immediately, with no retry and no sleep. -/
theorem retry_backoff_behaviour (α : Type) :
    (∀ call : Nat → CallResult α, (∀ i, i < 6 → call i = .transient) →
        retryOnError call = (.gaveUp, [1, 2, 5, 10, 30])) ∧
      (∀ call : Nat → CallResult α, call 0 = .fatal →
        retryOnError call = (.raised, [])) := by
  constructor
  · intro call h
    simp [retryOnError, backoffIntervals, retryAux,
      h 0 (by norm_num), h 1 (by norm_num), h 2 (by norm_num),
      h 3 (by norm_num), h 4 (by norm_num), h 5 (by norm_num)]
  · intro call h
    simp [retryOnError, backoffIntervals, retryAux, h]

/-- Witness for C4's amended theorem at two concrete calls. -/
theorem retry_backoff_behaviour_witness :
    retryOnError (fun _ : Nat => (CallResult.transient : CallResult Nat)) =
        (.gaveUp, [1, 2, 5, 10, 30]) ∧
      retryOnError (fun _ : Nat => (CallResult.fatal : CallResult Nat)) =
        (.raised, []) :=
  ⟨(retry_backoff_behaviour Nat).1 _ (fun _ _ => rfl),
    (retry_backoff_behaviour Nat).2 _ rfl⟩

/-- Trace of one run of `_fetch_with_limit` (`tidal/tidal.py`): the
items yielded, and the offsets at which the (retry-wrapped) page
fetch was invoked. -/
structure FetchTrace (α : Type) where
  items : List α
  offsets : List Nat
deriving DecidableEq

/-- The loop of `_fetch_with_limit` with its fixed page size 50:
fetch the page at the current offset through the retry wrapper; a
failed (`None`) page stops the loop, keeping everything yielded so
far; the items of a successful page are all yielded, and a page
shorter than the page size then ends the loop; otherwise the offset
advances by the page size.  `fuel` bounds the iterations of the
unbounded `while True`, making the function total; every theorem
below supplies enough fuel for the loop to stop on its own. -/
def fetchWithLimitAux {α : Type} (f : Nat → Option (List α)) :
    Nat → Nat → FetchTrace α
  | 0, _ => ⟨[], []⟩
  | fuel + 1, offset =>
    match f offset with
    | none => ⟨[], [offset]⟩
    | some items =>
      if items.length < 50 then ⟨items, [offset]⟩
      else
        let rest := fetchWithLimitAux f fuel (offset + 50)
        ⟨items ++ rest.items, offset :: rest.offsets⟩

/-- `_fetch_with_limit`, which always starts at offset 0. -/
def fetchWithLimit {α : Type} (f : Nat → Option (List α)) (fuel : Nat) :
    FetchTrace α :=
  fetchWithLimitAux f fuel 0

/-- A failed page fetch stops the loop at that offset. -/
theorem fetchAux_stop_none {α : Type} (f : Nat → Option (List α))
    (fuel offset : Nat) (h : f offset = none) :
    fetchWithLimitAux f (fuel + 1) offset = ⟨[], [offset]⟩ := by
  simp [fetchWithLimitAux, h]

/-- A page shorter than the page size is yielded and stops the
loop. -/
theorem fetchAux_stop_short {α : Type} (f : Nat → Option (List α))
    (fuel offset : Nat) (items : List α) (h : f offset = some items)
    (hl : items.length < 50) :
    fetchWithLimitAux f (fuel + 1) offset = ⟨items, [offset]⟩ := by
  simp [fetchWithLimitAux, h, hl]

/-- A full page is yielded and the loop continues at the next
offset. -/
theorem fetchAux_full {α : Type} (f : Nat → Option (List α))
    (fuel offset offset2 : Nat) (items : List α) (h : f offset = some items)
    (hl : ¬items.length < 50) (hoff : offset2 = offset + 50) :
    fetchWithLimitAux f (fuel + 1) offset =
      ⟨items ++ (fetchWithLimitAux f fuel offset2).items,
        offset :: (fetchWithLimitAux f fuel offset2).offsets⟩ := by
  subst hoff
  simp [fetchWithLimitAux, h, hl]

/-- C8: the paginated-listing adapter yields the items of
successive pages in original order at increasing offsets and stops
exactly at the first short page — over a 3-page source of sizes
50, 50, 30 it yields the 130 items of the three pages in order and
queries only offsets 0, 50, 100 — and it stops after a failed
(retried) page fetch, keeping everything already yielded. -/
theorem fetch_paginates_in_order (α : Type) (fuel : Nat) (l0 l1 l2 : List α)
    (f g : Nat → Option (List α))
    (hl0 : l0.length = 50) (hl1 : l1.length = 50) (hl2 : l2.length = 30)
    (hf0 : f 0 = some l0) (hf1 : f 50 = some l1) (hf2 : f 100 = some l2)
    (hg0 : g 0 = some l0) (hg1 : g 50 = none) :
    fetchWithLimit f (fuel + 3) = ⟨l0 ++ l1 ++ l2, [0, 50, 100]⟩ ∧
      (fetchWithLimit f (fuel + 3)).items.length = 130 ∧
      fetchWithLimit g (fuel + 2) = ⟨l0, [0, 50]⟩ := by
  have step2 : fetchWithLimitAux f (fuel + 1) 100 = ⟨l2, [100]⟩ :=
    fetchAux_stop_short f fuel 100 l2 hf2 (by omega)
  have step1 : fetchWithLimitAux f (fuel + 2) 50 =
      ⟨l1 ++ l2, [50, 100]⟩ := by
    have h2 : fuel + 2 = (fuel + 1) + 1 := by omega
    rw [h2, fetchAux_full f (fuel + 1) 50 100 l1 hf1 (by omega) (by norm_num),
      step2]
  have step0 : fetchWithLimitAux f (fuel + 3) 0 =
      ⟨l0 ++ (l1 ++ l2), [0, 50, 100]⟩ := by
    have h3 : fuel + 3 = (fuel + 2) + 1 := by omega
    rw [h3, fetchAux_full f (fuel + 2) 0 50 l0 hf0 (by omega) (by norm_num),
      step1]
  have t1 : fetchWithLimitAux g (fuel + 1) 50 = ⟨[], [50]⟩ :=
    fetchAux_stop_none g fuel 50 hg1
  have t0 : fetchWithLimitAux g (fuel + 2) 0 = ⟨l0 ++ [], [0, 50]⟩ := by
    have h2 : fuel + 2 = (fuel + 1) + 1 := by omega
    rw [h2, fetchAux_full g (fuel + 1) 0 50 l0 hg0 (by omega) (by norm_num),
      t1]
  refine ⟨?_, ?_, ?_⟩
  · rw [fetchWithLimit, step0, List.append_assoc]
  · rw [fetchWithLimit, step0]
    simp [hl0, hl1, hl2]
  · rw [fetchWithLimit, t0, List.append_nil]

/-- First page of the mocked 3-page source: items 0–49. -/
def pageA : List Nat := List.range 50

/-- Second page of the mocked 3-page source: items 50–99. -/
def pageB : List Nat := (List.range 50).map (fun n => n + 50)

/-- Third, short page of the mocked 3-page source: items 100–129. -/
def pageC : List Nat := (List.range 30).map (fun n => n + 100)

/-- A mocked 3-page paginated source of sizes 50, 50, 30. -/
def pagesOk : Nat → Option (List Nat) := fun offset =>
  if offset = 0 then some pageA
  else if offset = 50 then some pageB
  else if offset = 100 then some pageC
  else none

/-- A mocked source whose second page fetch ultimately fails. -/
def pagesFailing : Nat → Option (List Nat) := fun offset =>
  if offset = 0 then some pageA else none

/-- Witness for C8 on the mocked sources. -/
theorem fetch_paginates_in_order_witness :
    fetchWithLimit pagesOk (0 + 3) = ⟨pageA ++ pageB ++ pageC, [0, 50, 100]⟩ ∧
      (fetchWithLimit pagesOk (0 + 3)).items.length = 130 ∧
      fetchWithLimit pagesFailing (0 + 2) = ⟨pageA, [0, 50]⟩ :=
  fetch_paginates_in_order Nat 0 pageA pageB pageC pagesOk pagesFailing
    (by decide) (by decide) (by decide) rfl rfl rfl rfl rfl

/-- The id sequence of a track list (destination-side identity). -/
def trackIds (ts : List Track) : List TrackId :=
  ts.map Track.id

/-- Modelled from the spec: `reorganize_playlist` is not among the
available sources (only its caller in `__main__.py` is).  Per §4.4
it compares the destination playlist's current track order with the
desired order by identity equality on track ids; on a match it
reports unchanged (`false`) and leaves the playlist as is;
otherwise it issues the remote reorder, which either re-sequences
the destination to the desired order exactly and reports changed
(`true`), or fails (`none`).  `remoteOk` stands for the success of
the remote reorder operation. -/
def reorganizePlaylist (remoteOk : Bool) (current desired : List Track) :
    Option (Bool × List Track) :=
  if trackIds current = trackIds desired then some (false, current)
  else if remoteOk then some (true, desired)
  else none

/-- C9: reordering reports unchanged exactly when the current order
already matches the desired order by track ids, otherwise
re-sequences the destination to the desired order and reports
changed (or fails when the remote operation fails); consequently,
reordering `[A, B, C]` to `[C, A, B]` reports changed and leaves
the playlist in order `[C, A, B]`, after which the same desired
order reports unchanged. -/
theorem reorganize_changed_then_unchanged (A B C : Track)
    (hAC : A.id ≠ C.id) :
    reorganizePlaylist true [A, B, C] [C, A, B] = some (true, [C, A, B]) ∧
      reorganizePlaylist true [C, A, B] [C, A, B] = some (false, [C, A, B]) ∧
      (∀ remoteOk current desired, trackIds current = trackIds desired →
        reorganizePlaylist remoteOk current desired = some (false, current)) ∧
      (∀ current desired, trackIds current ≠ trackIds desired →
        reorganizePlaylist true current desired = some (true, desired) ∧
          reorganizePlaylist false current desired = none) := by
  have hne : trackIds [A, B, C] ≠ trackIds [C, A, B] := by
    simp only [trackIds, List.map_cons, List.map_nil, ne_eq,
      List.cons.injEq, not_and]
    intro h1
    exact absurd h1 hAC
  refine ⟨?_, ?_, ?_, ?_⟩
  · simp [reorganizePlaylist, hne]
  · simp [reorganizePlaylist]
  · intro remoteOk current desired hmatch
    simp [reorganizePlaylist, hmatch]
  · intro current desired hdiff
    constructor <;> simp [reorganizePlaylist, hdiff]

/-- Destination-side track A of the reorder scenario. -/
def reoA : Track :=
  { id := .inl "A", isrc := "IA", name := "A", duration := 0, artists := ∅ }

/-- Destination-side track B of the reorder scenario. -/
def reoB : Track :=
  { id := .inl "B", isrc := "IB", name := "B", duration := 0, artists := ∅ }

/-- Destination-side track C of the reorder scenario. -/
def reoC : Track :=
  { id := .inl "C", isrc := "IC", name := "C", duration := 0, artists := ∅ }

/-- Witness for C9 at the concrete `[A, B, C]` / `[C, A, B]`
scenario. -/
theorem reorganize_changed_then_unchanged_witness :
    reorganizePlaylist true [reoA, reoB, reoC] [reoC, reoA, reoB] =
        some (true, [reoC, reoA, reoB]) ∧
      reorganizePlaylist true [reoC, reoA, reoB] [reoC, reoA, reoB] =
        some (false, [reoC, reoA, reoB]) :=
  ⟨(reorganize_changed_then_unchanged reoA reoB reoC (by decide)).1,
    (reorganize_changed_then_unchanged reoA reoB reoC (by decide)).2.1⟩

/-- A name folding to the empty string produces the fragment set
containing only the empty string: the folded name contains neither
separator, so both separator branches add the whole (empty) folded
name. -/
theorem normalizeArtistName_of_empty_fold (name : String)
    (h : asciiFold name = "") :
    normalizeArtistName name = {""} := by
  have h2 : asciiFoldList name.toList = [] := congrArg String.data h
  simp only [normalizeArtistName, h2]
  decide

/-- A nonempty artist set all of whose names have the fragment set
`{""}` normalizes to exactly `{""}`. -/
theorem normalizedArtists_all_empty (s : Finset String) (hs : s.Nonempty)
    (h : ∀ x ∈ s, normalizeArtistName x = {""}) :
    normalizedArtists s = {""} := by
  unfold normalizedArtists
  apply Finset.ext
  intro y
  simp only [Finset.mem_biUnion, Finset.mem_singleton]
  constructor
  · rintro ⟨x, hx, hy⟩
    rw [h x hx] at hy
    simpa using hy
  · rintro rfl
    obtain ⟨x, hx⟩ := hs
    exact ⟨x, hx, by rw [h x hx]; simp⟩

/-- C10: every artist name that leaves no ASCII character after the
transliteration pipeline normalizes to the set containing only the
empty string; hence two tracks with nonempty artist sets made up
entirely of such names have normalized fragment sets `{""}` on both
sides, whose intersection is nonempty, so they always pass the
artist check (step 3) of the equality predicate. -/
theorem nonlatin_artists_always_pass_artist_check (a b : Track)
    (ha : a.artists.Nonempty) (hb : b.artists.Nonempty)
    (hfa : ∀ n ∈ a.artists, asciiFold n = "")
    (hfb : ∀ n ∈ b.artists, asciiFold n = "") :
    (∀ n ∈ a.artists, normalizeArtistName n = {""}) ∧
      normalizedArtists a.artists = {""} ∧
      normalizedArtists b.artists = {""} ∧
      normalizedArtists a.artists ∩ normalizedArtists b.artists ≠ ∅ := by
  have hna : ∀ n ∈ a.artists, normalizeArtistName n = {""} :=
    fun n hn => normalizeArtistName_of_empty_fold n (hfa n hn)
  have hnb : ∀ n ∈ b.artists, normalizeArtistName n = {""} :=
    fun n hn => normalizeArtistName_of_empty_fold n (hfb n hn)
  have hea := normalizedArtists_all_empty a.artists ha hna
  have heb := normalizedArtists_all_empty b.artists hb hnb
  refine ⟨hna, hea, heb, ?_⟩
  rw [hea, heb]
  decide

/-- A track whose only artist name is fully non-Latin. -/
def cjkTrackA : Track :=
  { id := .inl "ca", isrc := "CA", name := "x", duration := 0, artists := {"山"} }

/-- Another track whose only artist name is fully non-Latin. -/
def cjkTrackB : Track :=
  { id := .inl "cb", isrc := "CB", name := "y", duration := 0, artists := {"引"} }

/-- Witness for C10 at two concrete fully non-Latin artist names. -/
theorem nonlatin_artists_always_pass_artist_check_witness :
    (∀ n ∈ cjkTrackA.artists, normalizeArtistName n = {""}) ∧
      normalizedArtists cjkTrackA.artists = {""} ∧
      normalizedArtists cjkTrackB.artists = {""} ∧
      normalizedArtists cjkTrackA.artists ∩ normalizedArtists cjkTrackB.artists ≠ ∅ :=
  nonlatin_artists_always_pass_artist_check cjkTrackA cjkTrackB
    ⟨"山", by decide⟩ ⟨"引", by decide⟩ (by decide) (by decide)
